import Mathlib

/-!
Verification development for the SMS-transaction ingestion pipeline
(`src/lib/geminiAgent.ts` and companions).

Strings from the source are modelled as `List Char`; JavaScript numbers
are modelled as `Rat` (`Option Rat` where `NaN` can occur); the external
classifier and the external rule source are modelled by explicit outcome
parameters, and the process-wide rule cache by an explicit state record.
-/

/-- Convenience: the character list of a string literal. -/
def str (s : String) : List Char := s.toList

/-- JS whitespace class membership for the ASCII whitespace characters
(space, tab, line feed, vertical tab, form feed, carriage return), the
only whitespace characters relevant to the embedded patterns. -/
def isSpaceJS (c : Char) : Bool :=
  c.toNat = 32 || c.toNat = 9 || c.toNat = 10 || c.toNat = 13 ||
  c.toNat = 11 || c.toNat = 12

/-- Per-character model of JS `toUpperCase` (ASCII range). -/
def charUpper (c : Char) : Char :=
  if 97 ≤ c.toNat && c.toNat ≤ 122 then Char.ofNat (c.toNat - 32) else c

/-- Per-character model of JS `toLowerCase` (ASCII range). -/
def charLower (c : Char) : Char :=
  if 65 ≤ c.toNat && c.toNat ≤ 90 then Char.ofNat (c.toNat + 32) else c

/-- The character class kept by `normalizeForMatch`:
`[A-Z0-9@\s]` (codepoints 65-90, 48-57, 64, whitespace). -/
def isKeptChar (c : Char) : Bool :=
  (65 ≤ c.toNat && c.toNat ≤ 90) || (48 ≤ c.toNat && c.toNat ≤ 57) ||
  c.toNat = 64 || isSpaceJS c

/-- Model of `replace(/\s+/g, ' ')`: collapse every whitespace run to a
single space. The flag records whether the previous character belonged
to a whitespace run already rewritten. -/
def squashSpaces : List Char → Bool → List Char
  | [], _ => []
  | c :: rest, prevSpace =>
    if isSpaceJS c then
      if prevSpace then squashSpaces rest true
      else ' ' :: squashSpaces rest true
    else c :: squashSpaces rest false

/-- Model of JS `String.prototype.trim`. -/
def trimJS (l : List Char) : List Char :=
  ((l.dropWhile isSpaceJS).reverse.dropWhile isSpaceJS).reverse

/-- `normalizeForMatch` from `src/lib/geminiAgent.ts`: upper-case, keep
only `A-Z0-9@` and whitespace, collapse whitespace runs to one space,
trim the ends. The leading emptiness test models `if (!input) return ''`. -/
def normalizeForMatch (input : List Char) : List Char :=
  if input = [] then []
  else trimJS (squashSpaces ((input.map charUpper).filter isKeptChar) false)

example : normalizeForMatch (str "  the Swiggy-Ltd!  x ") = str "THE SWIGGYLTD X" := by decide
example : normalizeForMatch (str "!!!") = [] := by decide

/-! ### Structural facts about `normalizeForMatch`, towards idempotence -/

/-- The head of the list, if present, is not whitespace. -/
def headNotSpace : List Char → Bool
  | [] => true
  | c :: _ => !isSpaceJS c

/-- No two adjacent whitespace characters occur in the list. -/
def noTwoSpaces : List Char → Bool
  | [] => true
  | c :: rest => (!isSpaceJS c || headNotSpace rest) && noTwoSpaces rest

lemma charUpper_eq_self_of_kept {c : Char} (h : isKeptChar c = true) : charUpper c = c := by
  simp only [isKeptChar, isSpaceJS, Bool.or_eq_true, Bool.and_eq_true,
    decide_eq_true_eq] at h
  simp only [charUpper, Bool.and_eq_true, decide_eq_true_eq]
  rw [if_neg]
  omega

lemma space_isKeptChar : isKeptChar ' ' = true := by decide

lemma squashSpaces_mem :
    ∀ (l : List Char) (b : Bool) (c : Char), c ∈ squashSpaces l b →
      c = ' ' ∨ (c ∈ l ∧ isSpaceJS c = false) := by
  intro l
  induction l with
  | nil => intro b c h; simp [squashSpaces] at h
  | cons a rest ih =>
    intro b c h
    by_cases ha : isSpaceJS a = true
    · cases b with
      | true =>
        simp only [squashSpaces, ha, if_pos] at h
        rcases ih true c h with h' | ⟨hm, hs⟩
        · exact Or.inl h'
        · exact Or.inr ⟨List.mem_cons_of_mem _ hm, hs⟩
      | false =>
        simp only [squashSpaces, ha, if_pos] at h
        rcases List.mem_cons.mp h with rfl | h'
        · exact Or.inl rfl
        · rcases ih true c h' with h'' | ⟨hm, hs⟩
          · exact Or.inl h''
          · exact Or.inr ⟨List.mem_cons_of_mem _ hm, hs⟩
    · simp only [squashSpaces, ha] at h
      simp only [Bool.false_eq_true, if_false] at h
      rcases List.mem_cons.mp h with rfl | h'
      · exact Or.inr ⟨List.mem_cons_self _ _, Bool.eq_false_iff.mpr ha⟩
      · rcases ih false c h' with h'' | ⟨hm, hs⟩
        · exact Or.inl h''
        · exact Or.inr ⟨List.mem_cons_of_mem _ hm, hs⟩

lemma squashSpaces_headNotSpace :
    ∀ (l : List Char), headNotSpace (squashSpaces l true) = true := by
  intro l
  induction l with
  | nil => rfl
  | cons a rest ih =>
    by_cases ha : isSpaceJS a = true
    · simp only [squashSpaces, ha, if_pos]; exact ih
    · simp only [squashSpaces, ha]
      simp only [Bool.false_eq_true, if_false, headNotSpace]
      exact Bool.not_eq_true' .. |>.mpr (Bool.eq_false_iff.mpr ha)

lemma squashSpaces_noTwoSpaces :
    ∀ (l : List Char) (b : Bool), noTwoSpaces (squashSpaces l b) = true := by
  intro l
  induction l with
  | nil => intro b; rfl
  | cons a rest ih =>
    intro b
    by_cases ha : isSpaceJS a = true
    · cases b with
      | true => simp only [squashSpaces, ha, if_pos]; exact ih true
      | false =>
        simp only [squashSpaces, ha, if_pos, noTwoSpaces]
        rw [squashSpaces_headNotSpace rest, ih true]
        simp
    · simp only [squashSpaces, ha, Bool.false_eq_true, if_false, noTwoSpaces]
      rw [ih false]
      simp [ha]

lemma noTwoSpaces_tail {c : Char} {l : List Char}
    (h : noTwoSpaces (c :: l) = true) : noTwoSpaces l = true := by
  simp only [noTwoSpaces, Bool.and_eq_true] at h
  exact h.2

lemma noTwoSpaces_suffix {l₁ l₂ : List Char} (h : l₁ <:+ l₂)
    (hn : noTwoSpaces l₂ = true) : noTwoSpaces l₁ = true := by
  obtain ⟨t, rfl⟩ := h
  induction t with
  | nil => exact hn
  | cons a t ih => exact ih (noTwoSpaces_tail hn)

/-- `noTwoSpaces` seen as an adjacency chain. -/
lemma noTwoSpaces_iff_chain' :
    ∀ (l : List Char), noTwoSpaces l = true ↔
      l.Chain' (fun a b => ¬(isSpaceJS a = true ∧ isSpaceJS b = true)) := by
  intro l
  induction l with
  | nil => simp [noTwoSpaces]
  | cons a rest ih =>
    rw [List.chain'_cons']
    simp only [noTwoSpaces, Bool.and_eq_true, Bool.or_eq_true, Bool.not_eq_true']
    constructor
    · rintro ⟨h1, h2⟩
      refine ⟨?_, ih.mp h2⟩
      intro b hb ⟨hsa, hsb⟩
      rcases h1 with h1 | h1
      · rw [h1] at hsa; cases hsa
      · cases rest with
        | nil => cases hb
        | cons r rs =>
          simp only [List.head?, Option.mem_some_iff] at hb
          subst hb
          simp only [headNotSpace, Bool.not_eq_true'] at h1
          rw [h1] at hsb; cases hsb
    · rintro ⟨h1, h2⟩
      refine ⟨?_, ih.mpr h2⟩
      by_cases hsa : isSpaceJS a = true
      · right
        cases rest with
        | nil => rfl
        | cons r rs =>
          have := h1 r rfl
          simp only [headNotSpace, Bool.not_eq_true']
          by_cases hsr : isSpaceJS r = true
          · exact absurd ⟨hsa, hsr⟩ this
          · exact Bool.eq_false_iff.mpr hsr
      · left; exact Bool.eq_false_iff.mpr hsa

lemma noTwoSpaces_reverse (l : List Char) :
    noTwoSpaces l.reverse = noTwoSpaces l := by
  have h1 := noTwoSpaces_iff_chain' l.reverse
  have h2 := noTwoSpaces_iff_chain' l
  have h3 : l.reverse.Chain' (fun a b => ¬(isSpaceJS a = true ∧ isSpaceJS b = true)) ↔
      l.Chain' (fun a b => ¬(isSpaceJS a = true ∧ isSpaceJS b = true)) := by
    rw [List.chain'_reverse]
    constructor
    · exact fun h => h.imp (fun a b hab ⟨x, y⟩ => hab ⟨y, x⟩)
    · exact fun h => h.imp (fun a b hab ⟨x, y⟩ => hab ⟨y, x⟩)
  rw [Bool.eq_iff_iff, h1, h2]
  exact h3

lemma headNotSpace_dropWhile :
    ∀ (l : List Char), headNotSpace (l.dropWhile isSpaceJS) = true := by
  intro l
  induction l with
  | nil => rfl
  | cons a rest ih =>
    rw [List.dropWhile_cons]
    by_cases ha : isSpaceJS a = true
    · rw [if_pos ha]; exact ih
    · rw [if_neg ha]
      simp only [headNotSpace, Bool.not_eq_true']
      exact Bool.eq_false_iff.mpr ha

lemma headNotSpace_prefix {l₁ l₂ : List Char} (h : l₁ <+: l₂)
    (hn : headNotSpace l₂ = true) : headNotSpace l₁ = true := by
  obtain ⟨t, rfl⟩ := h
  cases l₁ with
  | nil => rfl
  | cons a l => exact hn

lemma mem_trimJS {c : Char} {l : List Char} (h : c ∈ trimJS l) : c ∈ l := by
  simp only [trimJS, List.mem_reverse] at h
  have h1 : c ∈ (l.dropWhile isSpaceJS).reverse :=
    (List.dropWhile_suffix isSpaceJS).mem h
  rw [List.mem_reverse] at h1
  exact (List.dropWhile_suffix isSpaceJS).mem h1

lemma trimJS_headNotSpace (l : List Char) : headNotSpace (trimJS l) = true := by
  have hsuf := List.dropWhile_suffix (l := (l.dropWhile isSpaceJS).reverse) isSpaceJS
  obtain ⟨t, ht⟩ := hsuf
  have hpre : trimJS l <+: l.dropWhile isSpaceJS := by
    refine ⟨t.reverse, ?_⟩
    have := congrArg List.reverse ht
    rw [List.reverse_append, List.reverse_reverse] at this
    exact this
  exact headNotSpace_prefix hpre (headNotSpace_dropWhile l)

lemma trimJS_reverse_headNotSpace (l : List Char) :
    headNotSpace (trimJS l).reverse = true := by
  rw [trimJS, List.reverse_reverse]
  exact headNotSpace_dropWhile _

lemma trimJS_noTwoSpaces {l : List Char} (h : noTwoSpaces l = true) :
    noTwoSpaces (trimJS l) = true := by
  rw [trimJS, noTwoSpaces_reverse]
  refine noTwoSpaces_suffix (List.dropWhile_suffix isSpaceJS) ?_
  rw [noTwoSpaces_reverse]
  exact noTwoSpaces_suffix (List.dropWhile_suffix isSpaceJS) h

lemma squashSpaces_eq_self :
    ∀ (l : List Char) (b : Bool),
      (∀ c ∈ l, isSpaceJS c = true → c = ' ') →
      noTwoSpaces l = true →
      (b = true → headNotSpace l = true) →
      squashSpaces l b = l := by
  intro l
  induction l with
  | nil => intro b _ _ _; rfl
  | cons a rest ih =>
    intro b hsp hnt hb
    by_cases ha : isSpaceJS a = true
    · have hb' : b = false := by
        cases b with
        | false => rfl
        | true =>
          have := hb rfl
          simp only [headNotSpace, Bool.not_eq_true'] at this
          rw [ha] at this; cases this
      subst hb'
      simp only [squashSpaces, ha, if_pos, Bool.false_eq_true, if_false]
      have ha' : a = ' ' := hsp a (List.mem_cons_self _ _) ha
      have hrest : headNotSpace rest = true := by
        simp only [noTwoSpaces, Bool.and_eq_true, Bool.or_eq_true,
          Bool.not_eq_true'] at hnt
        rcases hnt.1 with h | h
        · rw [ha] at h; cases h
        · exact h
      rw [ih true (fun c hc => hsp c (List.mem_cons_of_mem _ hc))
        (noTwoSpaces_tail hnt) (fun _ => hrest), ha']
    · simp only [squashSpaces, ha, Bool.false_eq_true, if_false]
      rw [ih false (fun c hc => hsp c (List.mem_cons_of_mem _ hc))
        (noTwoSpaces_tail hnt) (fun h => by cases h)]

lemma dropWhile_eq_self_of_headNotSpace {l : List Char}
    (h : headNotSpace l = true) : l.dropWhile isSpaceJS = l := by
  cases l with
  | nil => rfl
  | cons a rest =>
    rw [List.dropWhile_cons, if_neg]
    simp only [headNotSpace, Bool.not_eq_true'] at h
    rw [h]
    simp

lemma trimJS_eq_self {l : List Char} (h1 : headNotSpace l = true)
    (h2 : headNotSpace l.reverse = true) : trimJS l = l := by
  rw [trimJS, dropWhile_eq_self_of_headNotSpace h1,
    dropWhile_eq_self_of_headNotSpace h2, List.reverse_reverse]

/-- The key shared fact: `normalizeForMatch` is idempotent. -/
lemma normalizeForMatch_idem (x : List Char) :
    normalizeForMatch (normalizeForMatch x) = normalizeForMatch x := by
  by_cases hx : x = []
  · subst hx; rfl
  · set r := normalizeForMatch x with hr
    have hrdef : r = trimJS (squashSpaces ((x.map charUpper).filter isKeptChar) false) := by
      rw [hr, normalizeForMatch, if_neg hx]
    by_cases hre : r = []
    · rw [hre, normalizeForMatch]; simp
    · -- characterize the members of r
      have hmem : ∀ c ∈ r, c = ' ' ∨ (isKeptChar c = true ∧ isSpaceJS c = false) := by
        intro c hc
        rw [hrdef] at hc
        have hc' := mem_trimJS hc
        rcases squashSpaces_mem _ _ _ hc' with h | ⟨hm, hs⟩
        · exact Or.inl h
        · exact Or.inr ⟨(List.mem_filter.mp hm).2, hs⟩
      have hkept : ∀ c ∈ r, isKeptChar c = true := by
        intro c hc
        rcases hmem c hc with rfl | ⟨h, _⟩
        · exact space_isKeptChar
        · exact h
      have hupper : ∀ c ∈ r, charUpper c = c :=
        fun c hc => charUpper_eq_self_of_kept (hkept c hc)
      have hspace : ∀ c ∈ r, isSpaceJS c = true → c = ' ' := by
        intro c hc hs
        rcases hmem c hc with rfl | ⟨_, hs'⟩
        · rfl
        · rw [hs] at hs'; cases hs'
      have hnts : noTwoSpaces r = true := by
        rw [hrdef]
        exact trimJS_noTwoSpaces (squashSpaces_noTwoSpaces _ _)
      have hhead : headNotSpace r = true := by rw [hrdef]; exact trimJS_headNotSpace _
      have hlast : headNotSpace r.reverse = true := by
        rw [hrdef]; exact trimJS_reverse_headNotSpace _
      rw [normalizeForMatch, if_neg hre]
      rw [List.map_congr_left hupper, List.map_id',
        List.filter_eq_self.mpr hkept,
        squashSpaces_eq_self r false hspace hnts (fun h => by cases h),
        trimJS_eq_self hhead hlast]

/-! ### JS string helpers -/

/-- Model of JS `String.prototype.includes`: `needle` occurs as a
contiguous substring of `hay`. -/
def jsIncludes (hay needle : List Char) : Bool :=
  if needle.isPrefixOf hay then true
  else
    match hay with
    | [] => false
    | _ :: t => jsIncludes t needle

lemma jsIncludes_iff (hay needle : List Char) :
    jsIncludes hay needle = true ↔ needle <:+: hay := by
  induction hay with
  | nil =>
    rw [jsIncludes]
    by_cases h : needle.isPrefixOf [] = true
    · rw [if_pos h]
      have := List.isPrefixOf_iff_prefix.mp h
      simp only [List.prefix_nil] at this
      subst this
      simp
    · rw [if_neg h]
      simp only [Bool.false_eq_true, false_iff, List.infix_nil]
      rintro rfl
      exact h rfl
  | cons a t ih =>
    rw [jsIncludes]
    by_cases h : needle.isPrefixOf (a :: t) = true
    · rw [if_pos h]
      simp only [true_iff]
      exact (List.isPrefixOf_iff_prefix.mp h).isInfix
    · rw [if_neg h]
      rw [ih, List.infix_cons_iff]
      constructor
      · exact Or.inr
      · rintro (hc | hc)
        · exact absurd (List.isPrefixOf_iff_prefix.mpr hc) h
        · exact hc

/-- Model of JS `toLowerCase` on a string. -/
def jsToLower (l : List Char) : List Char := l.map charLower

/-- Model of JS `toUpperCase` on a string. -/
def jsToUpper (l : List Char) : List Char := l.map charUpper

/-! ### Direction extraction (`extractDirection`) -/

/-- Transaction direction. -/
inductive Direction where
  | Inflow : Direction
  | Outflow : Direction
deriving DecidableEq, Repr

/-- The inflow keyword list of `extractDirection`. -/
def inflowKeywords : List (List Char) :=
  [str "credited", str "received", str "deposited", str "refund", str "cashback"]

/-- The outflow keyword list of `extractDirection`. -/
def outflowKeywords : List (List Char) :=
  [str "debited", str "paid", str "sent", str "withdrawn", str "purchase", str "spent"]

/-- `extractDirection` from `src/lib/geminiAgent.ts`: lower-case the SMS,
return `Inflow` if any inflow keyword occurs, else `Outflow` if any
outflow keyword occurs, else `Outflow`. -/
def extractDirection (sms : List Char) : Direction :=
  let lowerSms := jsToLower sms
  if inflowKeywords.any (fun keyword => jsIncludes lowerSms keyword) then Direction.Inflow
  else if outflowKeywords.any (fun keyword => jsIncludes lowerSms keyword) then Direction.Outflow
  else Direction.Outflow

example : extractDirection (str "Rs 500 credited from John Doe via IMPS") = Direction.Inflow := by decide
example : extractDirection (str "Rs 29.00 sent via UPI to SWIGGY") = Direction.Outflow := by decide
example : extractDirection (str "hello world") = Direction.Outflow := by decide

/-! ### Merchant rules and the merchant resolver -/

/-- A merchant-to-category rule (`MerchantRule` in the source). The
`priority` field (a JS number produced by `parseFloat`) is modelled as a
rational. -/
structure MerchantRule where
  match_pattern : List Char
  canonical_merchant : List Char
  category : List Char
  priority : ℚ
deriving DecidableEq, Repr

/-- Resolution source tag (`'rules' | 'gemini'` in the source). -/
inductive Source where
  | rules : Source
  | gemini : Source
deriving DecidableEq, Repr

/-- `MerchantCategoryResolution` from the source. -/
structure MerchantCategoryResolution where
  merchant : List Char
  category : List Char
  confidence : ℚ
  source : Source
deriving DecidableEq, Repr

/-- The sentinel string. -/
def unknownStr : List Char := str "Unknown"

/-- The matching predicate used inside `resolveMerchantAndCategory`:
`normalizedRawMerchant.includes(rule.match_pattern)`. -/
def ruleMatches (normalizedRawMerchant : List Char) (rule : MerchantRule) : Bool :=
  jsIncludes normalizedRawMerchant rule.match_pattern

/-- The reducer of `resolveMerchantAndCategory`:
`current.priority > prev.priority ? current : prev`. -/
def pickHigherPriority (prev current : MerchantRule) : MerchantRule :=
  if prev.priority < current.priority then current else prev

/-- `resolveMerchantAndCategory` from `src/lib/geminiAgent.ts`. `none`
models the `null` no-match result. -/
def resolveMerchantAndCategory (rawMerchant : List Char) (rules : List MerchantRule) :
    Option MerchantCategoryResolution :=
  if rawMerchant = [] ∨ rawMerchant = unknownStr ∨ rules.length = 0 then none
  else
    let normalizedRawMerchant := normalizeForMatch rawMerchant
    if normalizedRawMerchant = [] then none
    else
      match rules.filter (fun rule => ruleMatches normalizedRawMerchant rule) with
      | [] => none
      | first :: rest =>
        let selectedRule := rest.foldl pickHigherPriority first
        some ⟨selectedRule.canonical_merchant, selectedRule.category, 0.95, Source.rules⟩

/-- The behaviour of the `reduce` selection: the result is an element of
the matching list, no element has strictly higher priority, and every
element strictly before it in the list has strictly lower priority
(ties are broken in favour of the first-encountered rule). -/
lemma foldl_pickHigherPriority_spec :
    ∀ (rest : List MerchantRule) (first : MerchantRule),
      ∃ l₁ l₂, first :: rest = l₁ ++ (rest.foldl pickHigherPriority first) :: l₂ ∧
        (∀ x ∈ l₁, x.priority < (rest.foldl pickHigherPriority first).priority) ∧
        (∀ x ∈ first :: rest, x.priority ≤ (rest.foldl pickHigherPriority first).priority) := by
  intro rest
  induction rest with
  | nil =>
    intro first
    exact ⟨[], [], rfl, by simp, by simp⟩
  | cons c rs ih =>
    intro first
    rw [List.foldl_cons]
    by_cases h : first.priority < c.priority
    · have hpick : pickHigherPriority first c = c := by
        rw [pickHigherPriority, if_pos h]
      rw [hpick]
      obtain ⟨l₁, l₂, hdec, hlt, hle⟩ := ih c
      refine ⟨first :: l₁, l₂, ?_, ?_, ?_⟩
      · rw [List.cons_append, ← hdec]
      · intro x hx
        rcases List.mem_cons.mp hx with rfl | hx'
        · exact lt_of_lt_of_le h (hle c (List.mem_cons_self _ _))
        · exact hlt x hx'
      · intro x hx
        rcases List.mem_cons.mp hx with rfl | hx'
        · exact le_of_lt (lt_of_lt_of_le h (hle c (List.mem_cons_self _ _)))
        · exact hle x hx'
    · have hpick : pickHigherPriority first c = first := by
        rw [pickHigherPriority, if_neg h]
      rw [hpick]
      obtain ⟨l₁, l₂, hdec, hlt, hle⟩ := ih first
      cases l₁ with
      | nil =>
        simp only [List.nil_append] at hdec
        have hfirst : rs.foldl pickHigherPriority first = first := by
          have := hdec
          rw [List.cons.injEq] at this
          exact this.1.symm
        refine ⟨[], c :: rs, ?_, by simp, ?_⟩
        · rw [hfirst, List.nil_append]
        · intro x hx
          rw [hfirst]
          rcases List.mem_cons.mp hx with rfl | hx'
          · exact le_refl _
          · rcases List.mem_cons.mp hx' with rfl | hx''
            · exact le_of_not_lt h
            · have := hle x (List.mem_cons_of_mem _ hx'')
              rw [hfirst] at this
              exact this
      | cons a t =>
        rw [List.cons_append, List.cons.injEq] at hdec
        obtain ⟨ha, hrs⟩ := hdec
        have hfa : first ∈ a :: t := by rw [ha]; exact List.mem_cons_self _ _
        refine ⟨first :: c :: t, l₂, ?_, ?_, ?_⟩
        · rw [List.cons_append, List.cons_append]
          conv_lhs => rw [hrs]
        · intro x hx
          rcases List.mem_cons.mp hx with rfl | hx'
          · exact hlt x hfa
          · rcases List.mem_cons.mp hx' with rfl | hx''
            · exact lt_of_le_of_lt (le_of_not_lt h) (hlt first hfa)
            · exact hlt x (List.mem_cons_of_mem _ hx'')
        · intro x hx
          rcases List.mem_cons.mp hx with rfl | hx'
          · exact hle x (List.mem_cons_self _ _)
          · rcases List.mem_cons.mp hx' with rfl | hx''
            · exact le_trans (le_of_not_lt h) (hle first (List.mem_cons_self _ _))
            · exact hle x (List.mem_cons_of_mem _ hx'')

/-! ### A small backtracking regular-expression engine

The extraction helpers in the source are driven by JS regular
expressions. They are embedded here as syntax trees (`RE`) interpreted
by a continuation-passing backtracking matcher that reproduces the JS
semantics used by the patterns: ordered alternation, greedy and lazy
quantifiers, numbered capture groups, and leftmost-first search. -/

inductive RE where
  | eps : RE
  | lit : (Char → Bool) → RE
  | seq : RE → RE → RE
  | alt : RE → RE → RE
  | star : RE → Bool → RE
  | opt : RE → Bool → RE
  | group : Nat → RE → RE

/-- Captured groups: group number paired with captured text; the most
recent binding for a number is the relevant one. -/
abbrev Caps : Type := List (Nat × List Char)

def setCap (i : Nat) (v : List Char) (caps : Caps) : Caps := (i, v) :: caps

def capGet (caps : Caps) (i : Nat) : Option (List Char) := List.lookup i caps

/-- The capture value, with JS `undefined`/missing modelled as the empty
string (the extractors only test captures for truthiness, and a present
empty capture and an absent one are both falsy). -/
def capGetD (caps : Caps) (i : Nat) : List Char := (capGet caps i).getD []

/-- The iteration loop for `star`, parameterized by the matcher `m` of
the starred body. `fuel` bounds the number of unfoldings; every `star`
body in the embedded patterns consumes at least one character, so
`length + 1` fuel is always sufficient. Greedy stars try the body
first, lazy stars try the continuation first. -/
def starLoop (m : Nat → List Char → Caps → (List Char → Caps → Option Caps) → Option Caps)
    (g : Bool) : Nat → List Char → Caps → (List Char → Caps → Option Caps) → Option Caps
  | 0, _, _, _ => none
  | fuel + 1, s, caps, k =>
    if g then
      match m fuel s caps (fun s2 caps2 => starLoop m g fuel s2 caps2 k) with
      | some res => some res
      | none => k s caps
    else
      match k s caps with
      | some res => some res
      | none => m fuel s caps (fun s2 caps2 => starLoop m g fuel s2 caps2 k)

/-- The backtracking matcher in continuation-passing style. -/
def reMatch : RE → Nat → List Char → Caps → (List Char → Caps → Option Caps) → Option Caps
  | RE.eps => fun _ s caps k => k s caps
  | RE.lit p => fun _ s caps k =>
    match s with
    | [] => none
    | c :: rest => if p c then k rest caps else none
  | RE.seq a b => fun fuel s caps k =>
    reMatch a fuel s caps (fun s2 caps2 => reMatch b fuel s2 caps2 k)
  | RE.alt a b => fun fuel s caps k =>
    match reMatch a fuel s caps k with
    | some res => some res
    | none => reMatch b fuel s caps k
  | RE.opt r g => fun fuel s caps k =>
    if g then
      match reMatch r fuel s caps k with
      | some res => some res
      | none => k s caps
    else
      match k s caps with
      | some res => some res
      | none => reMatch r fuel s caps k
  | RE.star r g => fun fuel s caps k => starLoop (reMatch r) g fuel s caps k
  | RE.group i r => fun fuel s caps k =>
    reMatch r fuel s caps
      (fun s2 caps2 => k s2 (setCap i (s.take (s.length - s2.length)) caps2))

/-- Leftmost-first search, the semantics of `String.prototype.match`
without the `g` flag: try a match anchored at each position in order. -/
def reSearch (r : RE) : List Char → Option Caps
  | [] => reMatch r 1 [] [] (fun _ caps => some caps)
  | c :: rest =>
    match reMatch r ((c :: rest).length + 1) (c :: rest) [] (fun _ caps => some caps) with
    | some caps => some caps
    | none => reSearch r rest

/-! #### Pattern-building helpers -/

/-- An exact character. -/
def lit1 (c : Char) : RE := RE.lit (fun d => d == c)

/-- A character, case-insensitively (the `/i` flag). -/
def litCI (c : Char) : RE := RE.lit (fun d => charLower d == charLower c)

/-- Concatenation of a pattern list. -/
def rcat (l : List RE) : RE := l.foldr RE.seq RE.eps

/-- Ordered alternation of a pattern list (`none` never arises: the
embedded alternations are non-empty). -/
def ralts (l : List RE) : RE :=
  match l with
  | [] => RE.eps
  | [r] => r
  | r :: rest => RE.alt r (ralts rest)

/-- A case-sensitive literal string. -/
def rstr (s : String) : RE := rcat (s.toList.map lit1)

/-- A case-insensitive literal string. -/
def rstrCI (s : String) : RE := rcat (s.toList.map litCI)

/-- `x+` greedy. -/
def rplus (r : RE) : RE := RE.seq r (RE.star r true)

/-- `x+?` lazy. -/
def rplusLazy (r : RE) : RE := RE.seq r (RE.star r false)

/-- `x?` greedy. -/
def ropt (r : RE) : RE := RE.opt r true

def isDigitChar (c : Char) : Bool := 48 ≤ c.toNat && c.toNat ≤ 57
def isUpperAZ (c : Char) : Bool := 65 ≤ c.toNat && c.toNat ≤ 90
def isLowerAZ (c : Char) : Bool := 97 ≤ c.toNat && c.toNat ≤ 122
def isAlnumCI (c : Char) : Bool := isUpperAZ c || isLowerAZ c || isDigitChar c

/-- `\s` -/
def rws : RE := RE.lit isSpaceJS
/-- `\s+` -/
def rwsPlus : RE := rplus rws
/-- `\s*` -/
def rwsStar : RE := RE.star rws true
/-- `\d` -/
def rdigit : RE := RE.lit isDigitChar

example : (reSearch (rstrCI "abc") (str "xxAbCyy")).isSome = true := by decide
example : reSearch (rstrCI "abc") (str "xxAbyy") = none := by decide
example :
    capGetD ((reSearch (rcat [rstrCI "to", rwsPlus,
      RE.group 1 (rplusLazy (RE.lit isAlnumCI)), lit1 '.']) (str "sent to SWIGGY.Ref")).getD [])
      1 = str "SWIGGY" := by decide

/-! ### Character classes of the embedded patterns -/

/-- `[A-Za-z0-9\s@.-]` -/
def isMerchantChar (c : Char) : Bool :=
  isAlnumCI c || isSpaceJS c || c == '@' || c == '.' || c == '-'

/-- `[a-z0-9._-]` under `/i` -/
def isUpiLocalChar (c : Char) : Bool :=
  isAlnumCI c || c == '.' || c == '_' || c == '-'

/-- `[a-z0-9.-]` under `/i` -/
def isUpiDomainChar (c : Char) : Bool :=
  isAlnumCI c || c == '.' || c == '-'

/-- `[0-9,]` -/
def isAmountChar (c : Char) : Bool := isDigitChar c || c == ','

/-! ### Raw-merchant extraction (`extractRawMerchant`) -/

/-- Pattern 1: `to\s+([A-Za-z0-9\s@.-]+?)(?:\.Ref|\son|\sUPI|\sat)` with `/i`. -/
def toPattern : RE :=
  rcat [rstrCI "to", rwsPlus, RE.group 1 (rplusLazy (RE.lit isMerchantChar)),
    ralts [rcat [lit1 '.', rstrCI "Ref"], rcat [rws, rstrCI "on"],
      rcat [rws, rstrCI "UPI"], rcat [rws, rstrCI "at"]]]

/-- Pattern 2: `(?:to|from)\s+([a-z0-9._-]+@[a-z0-9.-]+)` with `/i`. -/
def upiPattern : RE :=
  rcat [ralts [rstrCI "to", rstrCI "from"], rwsPlus,
    RE.group 1 (rcat [rplus (RE.lit isUpiLocalChar), lit1 '@',
      rplus (RE.lit isUpiDomainChar)])]

/-- Pattern 3: `from\s+([A-Za-z0-9\s@.-]+?)(?:\sAC|\son|\sUPI|\sat|\.|,)` with `/i`. -/
def fromPattern : RE :=
  rcat [rstrCI "from", rwsPlus, RE.group 1 (rplusLazy (RE.lit isMerchantChar)),
    ralts [rcat [rws, rstrCI "AC"], rcat [rws, rstrCI "on"], rcat [rws, rstrCI "UPI"],
      rcat [rws, rstrCI "at"], lit1 '.', lit1 ',']]

/-- Pattern 4: `at\s+([A-Za-z0-9\s@.-]+?)(?:\.|\ on|\sRef)` with `/i`
(note the escaped literal space before `on`). -/
def atPattern : RE :=
  rcat [rstrCI "at", rwsPlus, RE.group 1 (rplusLazy (RE.lit isMerchantChar)),
    ralts [lit1 '.', rcat [lit1 ' ', rstrCI "on"], rcat [rws, rstrCI "Ref"]]]

def merchantPatterns : List RE := [toPattern, upiPattern, fromPattern, atPattern]

/-- The shared loop of the extractors that try patterns in order and
take the first truthy first capture group (`if (match && match[1])`). -/
def firstGroup1 : List RE → List Char → Option (List Char)
  | [], _ => none
  | p :: rest, sms =>
    match reSearch p sms with
    | some caps =>
      match capGet caps 1 with
      | some v => if v = [] then firstGroup1 rest sms else some v
      | none => firstGroup1 rest sms
    | none => firstGroup1 rest sms

/-- `extractRawMerchant` from `src/lib/geminiAgent.ts`. -/
def extractRawMerchant (sms : List Char) : List Char :=
  match firstGroup1 merchantPatterns sms with
  | some v => trimJS v
  | none => unknownStr

example :
    extractRawMerchant (str "Rs 29 sent to AD VENTURES.Ref:123 -Federal Bank") =
      str "AD VENTURES" := by decide
example : extractRawMerchant (str "paid to name@paytm today") = str "name@paytm" := by decide
example : extractRawMerchant (str "hello world") = unknownStr := by decide

/-! ### Amount extraction (`extractAmount`) -/

/-- Fold of a digit string into a natural number. -/
def digitsToNat (l : List Char) : Nat := l.foldl (fun acc c => acc * 10 + (c.toNat - 48)) 0

/-- Model of JS `parseFloat` for plain decimal inputs (optional leading
whitespace and sign, integer digits, optional point, fraction digits) —
the shape of every string this codebase parses. `none` models `NaN`. -/
def parseFloatQ (s : List Char) : Option ℚ :=
  let s1 := s.dropWhile isSpaceJS
  let signed : ℚ × List Char :=
    match s1 with
    | '-' :: t => (-1, t)
    | '+' :: t => (1, t)
    | t => (1, t)
  let intPart := signed.2.takeWhile isDigitChar
  let s3 := signed.2.dropWhile isDigitChar
  match s3 with
  | '.' :: t =>
    let fracPart := t.takeWhile isDigitChar
    if intPart = [] ∧ fracPart = [] then none
    else some (signed.1 * ((digitsToNat intPart : ℚ) +
      (digitsToNat fracPart : ℚ) / ((10 : ℚ) ^ fracPart.length)))
  | _ =>
    if intPart = [] then none
    else some (signed.1 * (digitsToNat intPart : ℚ))

example : parseFloatQ (str "29.00") = some 29 := by
  have h : parseFloatQ (str "29.00") =
      some (1 * ((digitsToNat (str "29") : ℚ) +
        (digitsToNat (str "00") : ℚ) / (10 : ℚ) ^ (str "00").length)) := rfl
  have h2 : digitsToNat (str "29") = 29 := by decide
  have h3 : digitsToNat (str "00") = 0 := by decide
  have h4 : (str "00").length = 2 := by decide
  rw [h, h2, h3, h4]
  norm_num
example : parseFloatQ (str "") = none := by decide

/-- `(?:Rs\.?|INR|₹)` -/
def curAlt : RE := ralts [rcat [rstrCI "Rs", ropt (lit1 '.')], rstrCI "INR", lit1 '₹']

/-- `([0-9,]+\.?\d*)` (the group body). -/
def amountNum : RE :=
  rcat [rplus (RE.lit isAmountChar), ropt (lit1 '.'), RE.star rdigit true]

/-- `(?:Rs\.?|INR|₹)\s*([0-9,]+\.?\d*)` with `/i`. -/
def amountPattern1 : RE := rcat [curAlt, rwsStar, RE.group 1 amountNum]

/-- `([0-9,]+\.?\d*)\s*(?:Rs\.?|INR|₹)` with `/i`. -/
def amountPattern2 : RE := rcat [RE.group 1 amountNum, rwsStar, curAlt]

/-- `(?:credited|debited|paid|sent|received)\s+(?:Rs\.?|INR|₹)?\s*([0-9,]+\.?\d*)` with `/i`. -/
def amountPattern3 : RE :=
  rcat [ralts [rstrCI "credited", rstrCI "debited", rstrCI "paid", rstrCI "sent",
    rstrCI "received"], rwsPlus, RE.opt curAlt true, rwsStar, RE.group 1 amountNum]

def amountPatterns : List RE := [amountPattern1, amountPattern2, amountPattern3]

/-- `extractAmount` from `src/lib/geminiAgent.ts`. The result is a JS
number: `none` models `NaN`. -/
def extractAmount (sms : List Char) : Option ℚ :=
  match firstGroup1 amountPatterns sms with
  | some v => parseFloatQ (v.filter (fun c => !(c == ',')))
  | none => some 0

example : extractAmount (str "Rs 29.00 sent via UPI") = parseFloatQ (str "29.00") := rfl
example : extractAmount (str "paid 3,000 INR") = parseFloatQ (str "3000") := rfl
example : extractAmount (str "no numbers here") = some 0 := rfl

/-! ### Transaction-id extraction (`extractTransactionId`) -/

/-- The clock and calendar inputs of the pipeline (`new Date()`,
`Date.now()`), passed explicitly. `month` is the 0-based month index of
JS `getMonth`. -/
structure NowInfo where
  day : Nat
  month : Nat
  year : Nat
  hours : Nat
  minutes : Nat
  ms : Nat
deriving DecidableEq, Repr

/-- Decimal rendering of a natural number (JS number-to-string). -/
def natToChars (n : Nat) : List Char := (Nat.repr n).toList

/-- `A\/c\s+([A-Z0-9]+)` with `/i`. -/
def acPattern : RE :=
  rcat [litCI 'A', lit1 '/', litCI 'c', rwsPlus, RE.group 1 (rplus (RE.lit isAlnumCI))]

/-- `(?:Ref\.?|Reference)\s*(?:No\.?|Number)?\s*:?\s*([A-Z0-9]+)` with `/i`. -/
def refPattern : RE :=
  rcat [ralts [rcat [rstrCI "Ref", ropt (lit1 '.')], rstrCI "Reference"], rwsStar,
    ropt (ralts [rcat [rstrCI "No", ropt (lit1 '.')], rstrCI "Number"]), rwsStar,
    ropt (lit1 ':'), rwsStar, RE.group 1 (rplus (RE.lit isAlnumCI))]

/-- `UTR\s*:?\s*([A-Z0-9]+)` with `/i`. -/
def utrPattern : RE :=
  rcat [rstrCI "UTR", rwsStar, ropt (lit1 ':'), rwsStar,
    RE.group 1 (rplus (RE.lit isAlnumCI))]

/-- `(?:XX|xxx)(\d+)` with `/i`. -/
def xxPattern : RE :=
  rcat [ralts [rstrCI "XX", rstrCI "xxx"], RE.group 1 (rplus rdigit)]

def idPatterns : List RE := [acPattern, refPattern, utrPattern, xxPattern]

/-- `extractTransactionId` from `src/lib/geminiAgent.ts`; the fallback
synthesizes `'TXN' + Date.now().toString().slice(-8)`. -/
def extractTransactionId (now : NowInfo) (sms : List Char) : List Char :=
  match firstGroup1 idPatterns sms with
  | some v => v
  | none =>
    let digits := natToChars now.ms
    str "TXN" ++ digits.drop (digits.length - 8)

example : extractTransactionId ⟨1, 0, 2026, 0, 0, 0⟩ (str "A/c XX2411 debited") = str "XX2411" := by decide
example : extractTransactionId ⟨1, 0, 2026, 0, 0, 1737459310123⟩ (str "hello") =
    str "TXN59310123" := by decide

/-! ### Date extraction (`extractTransactionDate`) -/

/-- `\d{1,2}` (greedy). -/
def d12 : RE := rcat [rdigit, ropt rdigit]
/-- `\d{2}` -/
def d2exact : RE := rcat [rdigit, rdigit]
/-- `\d{4}` -/
def d4exact : RE := rcat [rdigit, rdigit, rdigit, rdigit]
/-- `[-\/]` -/
def datesep : RE := RE.lit (fun c => c == '-' || c == '/')

/-- `(\d{1,2})(JAN|...|DEC)(\d{4})\s+(\d{1,2}):(\d{2}):(\d{2})` with `/i`. -/
def datePattern1 : RE :=
  rcat [RE.group 1 d12,
    RE.group 2 (ralts [rstrCI "JAN", rstrCI "FEB", rstrCI "MAR", rstrCI "APR",
      rstrCI "MAY", rstrCI "JUN", rstrCI "JUL", rstrCI "AUG", rstrCI "SEP",
      rstrCI "OCT", rstrCI "NOV", rstrCI "DEC"]),
    RE.group 3 d4exact, rwsPlus, RE.group 4 d12, lit1 ':', RE.group 5 d2exact,
    lit1 ':', RE.group 6 d2exact]

/-- `(\d{1,2})[-\/](\d{1,2})[-\/](\d{4})\s+(?:at\s+)?(\d{1,2}):(\d{2}):?(\d{2})?`
(case-sensitive: no `/i` flag on this one in the source). -/
def datePattern2 : RE :=
  rcat [RE.group 1 d12, datesep, RE.group 2 d12, datesep, RE.group 3 d4exact,
    rwsPlus, ropt (rcat [rstr "at", rwsPlus]), RE.group 4 d12, lit1 ':',
    RE.group 5 d2exact, ropt (lit1 ':'), ropt (RE.group 6 d2exact)]

/-- `on\s+(\d{1,2})\s+(Jan|...|Dec)\s+(\d{4})(?:\s+at\s+(\d{1,2}):(\d{2}))?` with `/i`. -/
def datePattern3 : RE :=
  rcat [rstrCI "on", rwsPlus, RE.group 1 d12, rwsPlus,
    RE.group 2 (ralts [rstrCI "Jan", rstrCI "Feb", rstrCI "Mar", rstrCI "Apr",
      rstrCI "May", rstrCI "Jun", rstrCI "Jul", rstrCI "Aug", rstrCI "Sep",
      rstrCI "Oct", rstrCI "Nov", rstrCI "Dec"]),
    rwsPlus, RE.group 3 d4exact,
    ropt (rcat [rwsPlus, rstrCI "at", rwsPlus, RE.group 4 d12, lit1 ':',
      RE.group 5 d2exact])]

def datePatterns : List RE := [datePattern1, datePattern2, datePattern3]

/-- The loop of `extractTransactionDate`: first pattern with any match
wins (`if (match) return formatTransactionDate(match)`). -/
def firstSearch : List RE → List Char → Option Caps
  | [], _ => none
  | p :: rest, sms =>
    match reSearch p sms with
    | some caps => some caps
    | none => firstSearch rest sms

/-- The month-number map of `formatTransactionDate`. -/
def monthMap : List (List Char × List Char) :=
  [(str "01", str "Jan"), (str "02", str "Feb"), (str "03", str "Mar"),
   (str "04", str "Apr"), (str "05", str "May"), (str "06", str "Jun"),
   (str "07", str "Jul"), (str "08", str "Aug"), (str "09", str "Sep"),
   (str "10", str "Oct"), (str "11", str "Nov"), (str "12", str "Dec")]

/-- The month-name map of `formatTransactionDate`. -/
def monthNameMap : List (List Char × List Char) :=
  [(str "JAN", str "Jan"), (str "FEB", str "Feb"), (str "MAR", str "Mar"),
   (str "APR", str "Apr"), (str "MAY", str "May"), (str "JUN", str "Jun"),
   (str "JUL", str "Jul"), (str "AUG", str "Aug"), (str "SEP", str "Sep"),
   (str "OCT", str "Oct"), (str "NOV", str "Nov"), (str "DEC", str "Dec")]

/-- Model of JS `parseInt` for the digit-prefixed strings produced by
the date and month captures (digit-prefix value). -/
def parseIntJS (s : List Char) : Nat := digitsToNat (s.takeWhile isDigitChar)

/-- Model of `padStart(2, c)`. -/
def padStart2 (c : Char) (s : List Char) : List Char :=
  if s.length < 2 then List.replicate (2 - s.length) c ++ s else s

/-- The month-name list of `getReadableDate` (indexed by `getMonth`). -/
def monthNames : List (List Char) :=
  [str "Jan", str "Feb", str "Mar", str "Apr", str "May", str "Jun",
   str "Jul", str "Aug", str "Sep", str "Oct", str "Nov", str "Dec"]

/-- `getReadableDate` from the source: the current date as `D Mon YYYY`
(the `getD` default is unreachable for the 0-11 values `getMonth` yields). -/
def getReadableDate (now : NowInfo) : List Char :=
  natToChars now.day ++ [' '] ++ monthNames.getD now.month (str "Jan") ++
    [' '] ++ natToChars now.year

/-- `get12HourTime` from the source. -/
def get12HourTime (now : NowInfo) : List Char :=
  let ampm := if 12 ≤ now.hours then str "pm" else str "am"
  let h0 := now.hours % 12
  let h := if h0 = 0 then 12 else h0
  natToChars h ++ [':'] ++ padStart2 '0' (natToChars now.minutes) ++ ampm

/-- `formatTransactionDate` from `src/lib/geminiAgent.ts`, taking the
match's capture groups. -/
def formatTransactionDate (now : NowInfo) (caps : Caps) : List Char :=
  let m1 := capGetD caps 1
  let m2 := capGetD caps 2
  let m3 := capGetD caps 3
  match (if m2 = [] then none else List.lookup (jsToUpper m2) monthNameMap) with
  | some month =>
    let day := parseIntJS (if m1 = [] then str "1" else m1)
    let year := if m3 = [] then natToChars now.year else m3
    natToChars day ++ [' '] ++ month ++ [' '] ++ year
  | none =>
    if m1 ≠ [] ∧ m2 ≠ [] ∧ m3 ≠ [] then
      let day := parseIntJS (if m1 = [] then str "1" else m1)
      let monthNum := padStart2 '0' (if m2 = [] then str "01" else m2)
      let month := (List.lookup monthNum monthMap).getD (str "Jan")
      let year := if m3 = [] then natToChars now.year else m3
      natToChars day ++ [' '] ++ month ++ [' '] ++ year
    else getReadableDate now

/-- `extractTransactionDate` from `src/lib/geminiAgent.ts`. -/
def extractTransactionDate (now : NowInfo) (sms : List Char) : List Char :=
  match firstSearch datePatterns sms with
  | some caps => formatTransactionDate now caps
  | none => getReadableDate now

example :
    extractTransactionDate ⟨21, 0, 2026, 0, 0, 0⟩ (str "17JAN2026 20:19:52 paid") =
      str "17 Jan 2026" := by decide
example :
    extractTransactionDate ⟨21, 0, 2026, 0, 0, 0⟩ (str "on 20-01-2026 at 16:35:10") =
      str "20 Jan 2026" := by decide
example :
    extractTransactionDate ⟨21, 2, 2026, 0, 0, 0⟩ (str "no date here") =
      str "21 Mar 2026" := by decide

/-! ### Account and payment-method extraction -/

/-- The bank alternation
`(Federal Bank|HDFC Bank|ICICI Bank|SBI|State Bank|Axis Bank|Kotak Bank|Yes Bank|IDFC|PNB|Bank of Baroda|Canara Bank)` with `/i`. -/
def bankPattern : RE :=
  RE.group 1 (ralts [rstrCI "Federal Bank", rstrCI "HDFC Bank", rstrCI "ICICI Bank",
    rstrCI "SBI", rstrCI "State Bank", rstrCI "Axis Bank", rstrCI "Kotak Bank",
    rstrCI "Yes Bank", rstrCI "IDFC", rstrCI "PNB", rstrCI "Bank of Baroda",
    rstrCI "Canara Bank"])

/-- `extractAccount` from `src/lib/geminiAgent.ts`. -/
def extractAccount (sms : List Char) : List Char :=
  match reSearch bankPattern sms with
  | some caps =>
    let v := capGetD caps 1
    if v = [] then unknownStr else v
  | none => unknownStr

example : extractAccount (str "sent -Federal Bank") = str "Federal Bank" := by decide
example : extractAccount (str "nothing") = unknownStr := by decide

/-- `extractPaymentMethod` from `src/lib/geminiAgent.ts`. -/
def extractPaymentMethod (sms : List Char) : List Char :=
  let lowerSms := jsToLower sms
  if jsIncludes lowerSms (str "upi") || jsIncludes lowerSms (str "@") then str "UPI"
  else if jsIncludes lowerSms (str "card") || jsIncludes lowerSms (str "atm") then str "Card"
  else if jsIncludes lowerSms (str "net banking") || jsIncludes lowerSms (str "netbanking") then
    str "Net Banking"
  else if jsIncludes lowerSms (str "wallet") then str "Wallet"
  else if jsIncludes lowerSms (str "cash") then str "Cash"
  else str "UPI"

example : extractPaymentMethod (str "paid by CARD") = str "Card" := by decide
example : extractPaymentMethod (str "hello") = str "UPI" := by decide

/-! ### The fallback classifier adapter (`classifyTransactionWithGemini`) -/

/-- The fixed allowed-category list (`ALLOWED_CATEGORIES`). -/
def ALLOWED_CATEGORIES : List (List Char) :=
  [str "Rent and maintainence",
   str "Utilities",
   str "Groceries & Home Supplies",
   str "Food & Dining",
   str "Entertainment, OTT etc",
   str "Investements and Stock Purchases",
   str "Fashion and Shopping",
   str "Fuel",
   str "Vehicle Ownership (Tyres, Washing etc)",
   str "Health & Medicine Expenses",
   str "Transport",
   str "Sending money to parents or family",
   str "Travel and Vacations",
   str "Home Improvement",
   str "Helping Others / Donations",
   str "Unknown",
   str "Credit Card",
   str "EMI",
   str "Loan Repayment"]

/-- `GeminiClassification` from the source. -/
structure GeminiClassification where
  category : List Char
  confidence : ℚ
  bank : List Char
  merchant : List Char
deriving DecidableEq, Repr

/-- The observable outcome of one external classifier call for the
current adapter: either any thrown failure (network error, JSON parse
error) or a parsed response object. A `none` confidence models a JSON
value that is not a number; an empty `merchant` models a missing or
empty (falsy) merchant field. -/
inductive GeminiOutcome where
  | failure : GeminiOutcome
  | response : (category : List Char) → (confidence : Option ℚ) →
      (merchant : List Char) → GeminiOutcome
deriving DecidableEq, Repr

/-- `classifyTransactionWithGemini` from `src/lib/geminiAgent.ts`,
parameterized by the outcome of the external call. Mirrors the source:
category not in `ALLOWED_CATEGORIES` forces category `Unknown` and
confidence 0; a non-number or out-of-range confidence forces 0; the
catch-all returns `Unknown`/0 with `merchant = rawMerchant || 'Unknown'`. -/
def classifyTransactionWithGemini (rawMerchant : List Char)
    (outcome : GeminiOutcome) : GeminiClassification :=
  match outcome with
  | GeminiOutcome.failure =>
    ⟨unknownStr, 0, unknownStr, if rawMerchant = [] then unknownStr else rawMerchant⟩
  | GeminiOutcome.response cat conf merch =>
    let catOk := ALLOWED_CATEGORIES.contains cat
    let cat1 := if catOk then cat else unknownStr
    let conf1 : Option ℚ := if catOk then conf else some 0
    let conf2 : ℚ :=
      match conf1 with
      | none => 0
      | some q => if q < 0 ∨ 1 < q then 0 else q
    ⟨cat1, conf2, unknownStr,
      if merch = [] then (if rawMerchant = [] then unknownStr else rawMerchant) else merch⟩

/-! ### The historical variant `classifyTransaction`
(second version of `geminiAgent.ts` in the repository), whose
invalid-category substitute is the miskeyed `'geminiMnknown'`. -/

/-- Outcome of the external call for the `classifyTransaction` variant,
whose parsed response also carries a bank field. -/
inductive GeminiOutcomeV2 where
  | failure : GeminiOutcomeV2
  | response : (category : List Char) → (confidence : Option ℚ) →
      (bank : List Char) → (merchant : List Char) → GeminiOutcomeV2
deriving DecidableEq, Repr

/-- `classifyTransaction` from the second version of `geminiAgent.ts`:
identical validation except that an invalid category is replaced by the
string `'geminiMnknown'` instead of `'Unknown'`. -/
def classifyTransaction (outcome : GeminiOutcomeV2) : GeminiClassification :=
  match outcome with
  | GeminiOutcomeV2.failure => ⟨unknownStr, 0, unknownStr, unknownStr⟩
  | GeminiOutcomeV2.response cat conf bank merch =>
    let catOk := ALLOWED_CATEGORIES.contains cat
    let cat1 := if catOk then cat else str "geminiMnknown"
    let conf1 : Option ℚ := if catOk then conf else some 0
    let conf2 : ℚ :=
      match conf1 with
      | none => 0
      | some q => if q < 0 ∨ 1 < q then 0 else q
    ⟨cat1, conf2,
      if bank = [] then unknownStr else bank,
      if merch = [] then unknownStr else merch⟩

/-! ### The pipeline orchestrator (`parseTransactionSMS`) -/

/-- `Direction` is rendered into the final record as-is; the record
mirrors `ParsedTransaction` from the source, with `amount` a JS number
(`none` = `NaN`). -/
structure ParsedTransaction where
  transaction_id : List Char
  transaction_date : List Char
  amount : Option ℚ
  category : List Char
  merchant : List Char
  account : List Char
  payment_method : List Char
  direction : Direction
  created_at : List Char
  raw_message : List Char
  confidence : ℚ
deriving DecidableEq, Repr

/-- `parseTransactionSMS` from `src/lib/geminiAgent.ts` (current
version), parameterized by the clock, by the rule list the awaited
`loadMerchantRules()` resolved to, and by the outcome of the external
classifier call (consulted only on the fallback path). -/
def parseTransactionSMS (now : NowInfo) (rules : List MerchantRule)
    (outcome : GeminiOutcome) (message : List Char) : ParsedTransaction :=
  let sms := trimJS message
  let amount := extractAmount sms
  let direction := extractDirection sms
  let transactionId := extractTransactionId now sms
  let transactionDate := extractTransactionDate now sms
  let account := extractAccount sms
  let paymentMethod := extractPaymentMethod sms
  let rawMerchant := extractRawMerchant sms
  let ruleResolution := resolveMerchantAndCategory rawMerchant rules
  match ruleResolution with
  | some res =>
    ⟨transactionId, transactionDate, amount, res.category, res.merchant, account,
      paymentMethod, direction, get12HourTime now, sms, res.confidence⟩
  | none =>
    let geminiData := classifyTransactionWithGemini rawMerchant outcome
    ⟨transactionId, transactionDate, amount, geminiData.category, geminiData.merchant,
      account, paymentMethod, direction, get12HourTime now, sms,
      min geminiData.confidence 0.7⟩

/-! ### The rule cache (`loadMerchantRules`) -/

/-- The module-level cache state: `merchantRulesCache` and
`lastRulesLoadTime` from the source (both `null`able). -/
structure CacheState where
  merchantRulesCache : Option (List MerchantRule)
  lastRulesLoadTime : Option Int
deriving DecidableEq, Repr

/-- `CACHE_DURATION_MS = 5 * 60 * 1000`. -/
def CACHE_DURATION_MS : Int := 5 * 60 * 1000

/-- The outcome of one external sheet read: rows (lists of cell
strings), or a thrown failure. The priority cell is parsed with
`parseFloat`; a missing cell is the empty list. -/
inductive LoadOutcome where
  | success : List (List (List Char)) → LoadOutcome
  | failure : LoadOutcome

/-- `parseFloat(x) || 0`: `NaN` (and 0 itself) becomes 0. -/
def jsOrZero : Option ℚ → ℚ
  | none => 0
  | some q => q

/-- The per-row body of `loadMerchantRules`: trim the first three
cells, skip the row (`null`) if any is empty, normalize the pattern at
load time, parse the priority cell. -/
def parseRow (row : List (List Char)) : Option MerchantRule :=
  if trimJS (row.getD 0 []) = [] ∨ trimJS (row.getD 1 []) = [] ∨
      trimJS (row.getD 2 []) = [] then none
  else
    some ⟨normalizeForMatch (trimJS (row.getD 0 [])), trimJS (row.getD 1 []),
      trimJS (row.getD 2 []), jsOrZero (parseFloatQ (row.getD 3 []))⟩

/-- The row-parsing map-and-filter of `loadMerchantRules`. -/
def rulesFromRows (rows : List (List (List Char))) : List MerchantRule :=
  rows.filterMap parseRow

/-- The freshness test
`merchantRulesCache && lastRulesLoadTime && (now - lastRulesLoadTime < CACHE_DURATION_MS)`
(a JS timestamp of 0 is falsy, hence the `t ≠ 0` conjunct). -/
def cacheFresh (st : CacheState) (now : Int) : Bool :=
  match st.merchantRulesCache, st.lastRulesLoadTime with
  | some _, some t => decide (t ≠ 0) && decide (now - t < CACHE_DURATION_MS)
  | _, _ => false

/-- `loadMerchantRules` from `src/lib/geminiAgent.ts`, parameterized by
the cache state, the clock, whether Google Sheets is configured, and
the outcome of the external read. Returns the rule list together with
the successor cache state. -/
def loadMerchantRules (st : CacheState) (now : Int) (sheetsConfigured : Bool)
    (outcome : LoadOutcome) : List MerchantRule × CacheState :=
  if cacheFresh st now then (st.merchantRulesCache.getD [], st)
  else if !sheetsConfigured then ([], st)
  else
    match outcome with
    | LoadOutcome.success rows =>
      let rules := rulesFromRows rows
      (rules, ⟨some rules, some now⟩)
    | LoadOutcome.failure => (st.merchantRulesCache.getD [], st)

/-! ### Helper lemmas for the claim theorems -/

lemma firstGroup1_eq_none {ps : List RE} {sms : List Char}
    (h : ∀ p ∈ ps, reSearch p sms = none) : firstGroup1 ps sms = none := by
  induction ps with
  | nil => rfl
  | cons p rest ih =>
    rw [firstGroup1, h p (List.mem_cons_self _ _)]
    exact ih (fun q hq => h q (List.mem_cons_of_mem _ hq))

lemma firstSearch_eq_none {ps : List RE} {sms : List Char}
    (h : ∀ p ∈ ps, reSearch p sms = none) : firstSearch ps sms = none := by
  induction ps with
  | nil => rfl
  | cons p rest ih =>
    rw [firstSearch, h p (List.mem_cons_self _ _)]
    exact ih (fun q hq => h q (List.mem_cons_of_mem _ hq))

lemma jsIncludes_eq_false {hay needle : List Char}
    (h : ¬ needle <:+: hay) : jsIncludes hay needle = false :=
  Bool.eq_false_iff.mpr (fun hc => h ((jsIncludes_iff hay needle).mp hc))

lemma keyword_any_eq_false {ks : List (List Char)} {hay : List Char}
    (h : ¬ ∃ k ∈ ks, k <:+: hay) :
    ks.any (fun k => jsIncludes hay k) = false := by
  rw [Bool.eq_false_iff]
  intro hc
  rw [List.any_eq_true] at hc
  obtain ⟨k, hk, hkk⟩ := hc
  exact h ⟨k, hk, (jsIncludes_iff hay k).mp hkk⟩

/-! ### Claim theorems -/

/-- Claim C1: for every message and every rule list, when the merchant
resolver yields no match (so the fallback classifier is invoked), the
confidence of the final parsed transaction is at most 0.7, regardless
of the confidence the classifier reports. -/
theorem parseTransactionSMS_fallback_confidence_le_cap
    (now : NowInfo) (rules : List MerchantRule) (outcome : GeminiOutcome)
    (message : List Char)
    (h : resolveMerchantAndCategory (extractRawMerchant (trimJS message)) rules = none) :
    (parseTransactionSMS now rules outcome message).confidence ≤ 0.7 := by
  rw [parseTransactionSMS]
  simp only [h]
  exact min_le_right _ _

theorem parseTransactionSMS_fallback_confidence_le_cap_witness :
    resolveMerchantAndCategory (extractRawMerchant (trimJS (str "hello"))) [] = none ∧
    (parseTransactionSMS ⟨21, 0, 2026, 13, 5, 1737459310123⟩ []
      (GeminiOutcome.response (str "Food & Dining") (some 0.99) (str "SWIGGY"))
      (str "hello")).confidence ≤ 0.7 :=
  ⟨by decide,
   parseTransactionSMS_fallback_confidence_le_cap _ _ _ _ (by decide)⟩

/-- Claim C2 counterexample: the message `"credited and debited"`
contains keywords of both the inflow and the outflow set, yet the
extracted direction is `Inflow`, not `Outflow` as the claim states. -/
theorem extractDirection_both_keywords_counterexample :
    (∃ k ∈ inflowKeywords, k <:+: jsToLower (str "credited and debited")) ∧
    (∃ k ∈ outflowKeywords, k <:+: jsToLower (str "credited and debited")) ∧
    extractDirection (str "credited and debited") = Direction.Inflow ∧
    extractDirection (str "credited and debited") ≠ Direction.Outflow :=
  ⟨by decide, by decide, by decide, by decide⟩

/-- Claim C2 (amended): direction extraction lower-cases the message
and classifies by keyword-set membership; the direction is `Inflow`
exactly when some inflow keyword occurs (so when both sets occur the
inflow set wins, having been checked first), and `Outflow` whenever no
inflow keyword occurs — in particular when keywords of neither set
occur. -/
theorem extractDirection_characterization (sms : List Char) :
    (extractDirection sms = Direction.Inflow ↔
      ∃ k ∈ inflowKeywords, k <:+: jsToLower sms) ∧
    ((¬ ∃ k ∈ inflowKeywords, k <:+: jsToLower sms) →
      extractDirection sms = Direction.Outflow) := by
  constructor
  · rw [extractDirection]
    by_cases h : inflowKeywords.any (fun keyword => jsIncludes (jsToLower sms) keyword) = true
    · rw [if_pos h]
      simp only [true_iff]
      rw [List.any_eq_true] at h
      obtain ⟨k, hk, hkk⟩ := h
      exact ⟨k, hk, (jsIncludes_iff _ k).mp hkk⟩
    · rw [if_neg h]
      constructor
      · intro hc
        by_cases h2 : outflowKeywords.any (fun keyword => jsIncludes (jsToLower sms) keyword) = true
        · rw [if_pos h2] at hc; cases hc
        · rw [if_neg h2] at hc; cases hc
      · intro ⟨k, hk, hkk⟩
        exact absurd (List.any_eq_true.mpr ⟨k, hk, (jsIncludes_iff _ k).mpr hkk⟩) h
  · intro h
    rw [extractDirection, if_neg]
    · by_cases h2 : outflowKeywords.any (fun keyword => jsIncludes (jsToLower sms) keyword) = true
      · rw [if_pos h2]
      · rw [if_neg h2]
    · intro hc
      rw [List.any_eq_true] at hc
      obtain ⟨k, hk, hkk⟩ := hc
      exact h ⟨k, hk, (jsIncludes_iff _ k).mp hkk⟩

theorem extractDirection_characterization_witness :
    extractDirection (str "cashback and purchase arrived") = Direction.Inflow ∧
    extractDirection (str "nothing relevant") = Direction.Outflow :=
  ⟨(extractDirection_characterization (str "cashback and purchase arrived")).1.mpr
      ⟨str "cashback", by decide, by decide⟩,
   (extractDirection_characterization (str "nothing relevant")).2 (by decide)⟩

/-- Claim C3: a rule matches a raw merchant iff the normalized raw
merchant contains the rule's normalized pattern as a substring. The
hypothesis records that the stored pattern is already normalized,
which `loadMerchantRules` guarantees at load time. -/
theorem ruleMatches_iff_normalized_substring (rawMerchant : List Char) (rule : MerchantRule)
    (h : normalizeForMatch rule.match_pattern = rule.match_pattern) :
    (ruleMatches (normalizeForMatch rawMerchant) rule = true ↔
      normalizeForMatch rule.match_pattern <:+: normalizeForMatch rawMerchant) := by
  rw [h, ruleMatches]
  exact jsIncludes_iff _ _

/-- A concrete rule used by the witnesses. -/
def swiggyRule : MerchantRule := ⟨str "SWIGGY", str "Swiggy", str "Food & Dining", 1⟩

theorem ruleMatches_iff_normalized_substring_witness :
    (ruleMatches (normalizeForMatch (str "SWIGGY BANGALORE")) swiggyRule = true ↔
      normalizeForMatch swiggyRule.match_pattern <:+:
        normalizeForMatch (str "SWIGGY BANGALORE")) ∧
    ruleMatches (normalizeForMatch (str "SWIGGY BANGALORE")) swiggyRule = true ∧
    ruleMatches (normalizeForMatch (str "THE SWIGGY LTD")) swiggyRule = true ∧
    ruleMatches (normalizeForMatch (str "SWIG")) swiggyRule = false :=
  ⟨ruleMatches_iff_normalized_substring (str "SWIGGY BANGALORE") swiggyRule (by decide),
   by decide, by decide, by decide⟩

/-- Claim C4: when at least one rule matches (and the resolver's
guards pass), resolution returns the data of the matching rule with
the numerically highest priority — ties broken in favour of the rule
first encountered in list order — with confidence 0.95 and source
`rules`, regardless of where that rule sits in the list. -/
theorem resolveMerchantAndCategory_selects_highest_priority
    (rawMerchant : List Char) (rules : List MerchantRule)
    (h1 : rawMerchant ≠ []) (h2 : rawMerchant ≠ unknownStr)
    (h3 : normalizeForMatch rawMerchant ≠ [])
    (h4 : rules.filter (fun rule => ruleMatches (normalizeForMatch rawMerchant) rule) ≠ []) :
    ∃ selected l₁ l₂,
      rules.filter (fun rule => ruleMatches (normalizeForMatch rawMerchant) rule) =
        l₁ ++ selected :: l₂ ∧
      (∀ x ∈ l₁, x.priority < selected.priority) ∧
      (∀ x ∈ rules.filter (fun rule => ruleMatches (normalizeForMatch rawMerchant) rule),
        x.priority ≤ selected.priority) ∧
      resolveMerchantAndCategory rawMerchant rules =
        some ⟨selected.canonical_merchant, selected.category, 0.95, Source.rules⟩ := by
  have hlen : rules.length ≠ 0 := by
    intro hl
    rw [List.length_eq_zero] at hl
    subst hl
    exact h4 rfl
  rw [resolveMerchantAndCategory]
  rw [if_neg (by
    intro hc
    rcases hc with hc | hc | hc
    · exact h1 hc
    · exact h2 hc
    · exact hlen hc)]
  simp only []
  rw [if_neg h3]
  rcases hfil : rules.filter (fun rule => ruleMatches (normalizeForMatch rawMerchant) rule) with
    _ | ⟨first, rest⟩
  · exact absurd hfil h4
  · obtain ⟨l₁, l₂, hdec, hlt, hle⟩ := foldl_pickHigherPriority_spec rest first
    refine ⟨rest.foldl pickHigherPriority first, l₁, l₂, ?_, hlt, ?_, rfl⟩
    · exact hdec
    · exact hle

/-- Concrete rule lists for the C4 witness: two matching rules with
priorities 1 and 5, lower priority first. -/
def prioRules : List MerchantRule :=
  [⟨str "SWIGGY", str "SwiggyLow", str "Food & Dining", 1⟩,
   ⟨str "SWIGGY", str "SwiggyHigh", str "Food & Dining", 5⟩]

theorem resolveMerchantAndCategory_selects_highest_priority_witness :
    ∃ selected l₁ l₂,
      prioRules.filter
        (fun rule => ruleMatches (normalizeForMatch (str "SWIGGY BANGALORE")) rule) =
        l₁ ++ selected :: l₂ ∧
      (∀ x ∈ l₁, x.priority < selected.priority) ∧
      (∀ x ∈ prioRules.filter
        (fun rule => ruleMatches (normalizeForMatch (str "SWIGGY BANGALORE")) rule),
        x.priority ≤ selected.priority) ∧
      resolveMerchantAndCategory (str "SWIGGY BANGALORE") prioRules =
        some ⟨selected.canonical_merchant, selected.category, 0.95, Source.rules⟩ :=
  resolveMerchantAndCategory_selects_highest_priority (str "SWIGGY BANGALORE") prioRules
    (by decide) (by decide) (by decide) (by decide)

/-- Claim C5: a fresh cache is returned unchanged with no external
call (the result does not depend on the load outcome and the state is
untouched), and a failed load after a previous successful load returns
the previously loaded rules with cache state unchanged; no exception
reaches the caller (the model is a total function). -/
theorem loadMerchantRules_cache_behaviour
    (st : CacheState) (now : Int) (cfg : Bool) (outcome : LoadOutcome)
    (c : List MerchantRule) (t : Int) :
    (st.merchantRulesCache = some c → st.lastRulesLoadTime = some t → t ≠ 0 →
      now - t < CACHE_DURATION_MS → loadMerchantRules st now cfg outcome = (c, st)) ∧
    (st.merchantRulesCache = some c →
      loadMerchantRules st now true LoadOutcome.failure = (c, st)) := by
  constructor
  · intro hc ht ht0 hfresh
    have hf : cacheFresh st now = true := by
      rw [cacheFresh, hc, ht]
      simp [ht0, hfresh]
    unfold loadMerchantRules
    rw [if_pos hf, hc]
    rfl
  · intro hc
    by_cases hf : cacheFresh st now = true
    · unfold loadMerchantRules
      rw [if_pos hf, hc]
      rfl
    · unfold loadMerchantRules
      rw [if_neg hf]
      simp only [Bool.not_true, Bool.false_eq_true, if_false]
      rw [hc]
      rfl

theorem loadMerchantRules_cache_behaviour_witness :
    loadMerchantRules ⟨some [swiggyRule], some 1000⟩ 2000 false LoadOutcome.failure =
      ([swiggyRule], ⟨some [swiggyRule], some 1000⟩) ∧
    loadMerchantRules ⟨some [swiggyRule], some 900000000⟩ 900400000 true LoadOutcome.failure =
      ([swiggyRule], ⟨some [swiggyRule], some 900000000⟩) :=
  ⟨(loadMerchantRules_cache_behaviour ⟨some [swiggyRule], some 1000⟩ 2000 false
      LoadOutcome.failure [swiggyRule] 1000).1 rfl rfl (by decide) (by decide),
   (loadMerchantRules_cache_behaviour ⟨some [swiggyRule], some 900000000⟩ 900400000 true
      LoadOutcome.failure [swiggyRule] 900000000).2 rfl⟩

/-- Claim C6 counterexample: on a response whose category fails
validation, the adapter substitutes `Unknown`/0 but keeps the
response's merchant `"FOO"`, which differs from the raw extracted
token `"BAR"` — against the claim that the merchant always equals the
raw extracted merchant token on any failure. -/
theorem classifyTransactionWithGemini_merchant_counterexample :
    (classifyTransactionWithGemini (str "BAR")
      (GeminiOutcome.response (str "NotACategory") (some 0) (str "FOO"))).category =
        unknownStr ∧
    (classifyTransactionWithGemini (str "BAR")
      (GeminiOutcome.response (str "NotACategory") (some 0) (str "FOO"))).confidence = 0 ∧
    (classifyTransactionWithGemini (str "BAR")
      (GeminiOutcome.response (str "NotACategory") (some 0) (str "FOO"))).merchant =
        str "FOO" ∧
    str "FOO" ≠ str "BAR" :=
  ⟨by decide, by decide, by decide, by decide⟩

/-- Claim C6 (amended): when the external call throws or the response
fails to parse, the adapter returns category `Unknown`, confidence 0,
and merchant equal to the raw merchant token (or `Unknown` when that
token is empty); when the reported category fails validation, category
is forced to `Unknown` and confidence to 0, but the merchant comes
from the response when non-empty (falling back to the raw token, then
`Unknown`); when the category is valid but the reported confidence is
not a number in [0,1], the category is kept and confidence forced to
0. No failure propagates (the adapter is a total function). -/
theorem classifyTransactionWithGemini_failure_modes (rawMerchant : List Char) :
    (classifyTransactionWithGemini rawMerchant GeminiOutcome.failure =
      ⟨unknownStr, 0, unknownStr,
        if rawMerchant = [] then unknownStr else rawMerchant⟩) ∧
    (∀ cat conf merch, ALLOWED_CATEGORIES.contains cat = false →
      classifyTransactionWithGemini rawMerchant (GeminiOutcome.response cat conf merch) =
        ⟨unknownStr, 0, unknownStr,
          if merch = [] then (if rawMerchant = [] then unknownStr else rawMerchant)
          else merch⟩) ∧
    (∀ cat conf merch, ALLOWED_CATEGORIES.contains cat = true →
      (conf = none ∨ ∃ q, conf = some q ∧ (q < 0 ∨ 1 < q)) →
      (classifyTransactionWithGemini rawMerchant
          (GeminiOutcome.response cat conf merch)).category = cat ∧
      (classifyTransactionWithGemini rawMerchant
          (GeminiOutcome.response cat conf merch)).confidence = 0) := by
  refine ⟨rfl, ?_, ?_⟩
  · intro cat conf merch hcat
    rw [classifyTransactionWithGemini]
    simp only [hcat, Bool.false_eq_true, if_false]
    have h0 : ¬((0 : ℚ) < 0 ∨ (1 : ℚ) < 0) := by norm_num
    rw [if_neg h0]
  · intro cat conf merch hcat hconf
    rw [classifyTransactionWithGemini]
    simp only [hcat, if_true]
    rcases hconf with rfl | ⟨q, rfl, hq⟩
    · exact ⟨trivial, rfl⟩
    · exact ⟨trivial, by show (if q < 0 ∨ 1 < q then (0 : ℚ) else q) = 0; rw [if_pos hq]⟩

theorem classifyTransactionWithGemini_failure_modes_witness :
    (classifyTransactionWithGemini (str "BAR")
      (GeminiOutcome.response (str "NoSuchCat") none (str "")) =
      ⟨unknownStr, 0, unknownStr,
        if (str "" : List Char) = [] then
          (if (str "BAR" : List Char) = [] then unknownStr else str "BAR")
        else str ""⟩) ∧
    ((classifyTransactionWithGemini (str "BAR")
        (GeminiOutcome.response (str "Fuel") (some 2) (str "FOO"))).category =
      str "Fuel" ∧
     (classifyTransactionWithGemini (str "BAR")
        (GeminiOutcome.response (str "Fuel") (some 2) (str "FOO"))).confidence = 0) :=
  ⟨(classifyTransactionWithGemini_failure_modes (str "BAR")).2.1
      (str "NoSuchCat") none (str "") (by decide),
   (classifyTransactionWithGemini_failure_modes (str "BAR")).2.2
      (str "Fuel") (some 2) (str "FOO") (by decide)
      (Or.inr ⟨2, rfl, Or.inr (by norm_num)⟩)⟩

/-- Claim C7: the historical `classifyTransaction` variant substitutes
the miskeyed string `'geminiMnknown'` — not the canonical `Unknown`
sentinel — when the reported category fails validation, contradicting
the documented intent (the category is not even a member of
`ALLOWED_CATEGORIES`). Evaluated at a concrete invalid-category
response. -/
theorem classifyTransaction_miskeyed_sentinel :
    (classifyTransaction (GeminiOutcomeV2.response (str "Groceries") (some 0)
      (str "HDFC Bank") (str "SWIGGY"))).category = str "geminiMnknown" ∧
    (classifyTransaction (GeminiOutcomeV2.response (str "Groceries") (some 0)
      (str "HDFC Bank") (str "SWIGGY"))).category ≠ unknownStr ∧
    ALLOWED_CATEGORIES.contains (str "geminiMnknown") = false :=
  ⟨by decide, by decide, by decide⟩

/-- Claim C8: the shared normalization function is idempotent. -/
theorem normalizeForMatch_idempotent (x : List Char) :
    normalizeForMatch (normalizeForMatch x) = normalizeForMatch x :=
  normalizeForMatch_idem x

lemma dmy_ne_nil (a b c : List Char) : a ++ [' '] ++ b ++ [' '] ++ c ≠ [] := by
  intro h
  have hl := congrArg List.length h
  simp only [List.length_append, List.length_cons, List.length_nil] at hl
  omega

lemma getReadableDate_ne_nil (now : NowInfo) : getReadableDate now ≠ [] :=
  dmy_ne_nil _ _ _

lemma formatTransactionDate_ne_nil (now : NowInfo) (caps : Caps) :
    formatTransactionDate now caps ≠ [] := by
  simp only [formatTransactionDate]
  split
  · exact dmy_ne_nil _ _ _
  · split
    · exact dmy_ne_nil _ _ _
    · exact getReadableDate_ne_nil now

lemma firstGroup1_ne_nil {ps : List RE} {sms v : List Char}
    (h : firstGroup1 ps sms = some v) : v ≠ [] := by
  induction ps with
  | nil => cases h
  | cons p rest ih =>
    rw [firstGroup1] at h
    split at h
    · split at h
      · split at h
        · exact ih h
        · rw [Option.some.injEq] at h
          subst h
          assumption
      · exact ih h
    · exact ih h

lemma extractPaymentMethod_ne_nil (sms : List Char) : extractPaymentMethod sms ≠ [] := by
  simp only [extractPaymentMethod]
  split_ifs <;> decide

lemma extractAccount_ne_nil (sms : List Char) : extractAccount sms ≠ [] := by
  rw [extractAccount]
  rcases h : reSearch bankPattern sms with _ | caps
  · decide
  · dsimp only
    by_cases hv : capGetD caps 1 = []
    · rw [if_pos hv]; decide
    · rw [if_neg hv]; exact hv

lemma extractTransactionId_ne_nil (now : NowInfo) (sms : List Char) :
    extractTransactionId now sms ≠ [] := by
  rw [extractTransactionId]
  rcases h : firstGroup1 idPatterns sms with _ | v
  · intro hc
    have hl := congrArg List.length hc
    simp only [List.length_append, List.length_nil] at hl
    have h3 : (str "TXN").length = 3 := by decide
    omega
  · exact firstGroup1_ne_nil h

lemma extractTransactionDate_ne_nil (now : NowInfo) (sms : List Char) :
    extractTransactionDate now sms ≠ [] := by
  rw [extractTransactionDate]
  rcases h : firstSearch datePatterns sms with _ | caps
  · exact getReadableDate_ne_nil now
  · exact formatTransactionDate_ne_nil now caps

/-- Claim C9 counterexample: on the message `"to   at x"` the first
merchant pattern matches with a whitespace-only capture, which trims to
the empty string — so the extracted raw merchant field is empty, not
populated with the `Unknown` default, against the claim that every
field of the result is always populated. -/
theorem extraction_empty_merchant_counterexample :
    extractRawMerchant (str "to   at x") = [] ∧
    extractRawMerchant (str "to   at x") ≠ unknownStr :=
  ⟨by decide, by decide⟩

/-- Claim C9 (amended): field extraction is total (every extractor is
a total function of the message) and each field degrades to its
documented default when no pattern matches: amount 0, direction
`Outflow`, payment method `UPI`, account `Unknown`, raw merchant
`Unknown` when no merchant pattern matches, transaction id `'TXN' +`
the last 8 digits of the current epoch milliseconds, and timestamp the
current readable date. Payment method, account, transaction id and
timestamp are moreover always non-empty; the raw merchant field,
however, is not always populated — it is either the `Unknown` default
or the trimmed first capture of a matching pattern, and that trimmed
capture is empty when the capture was whitespace-only. -/
theorem extraction_total_with_defaults (now : NowInfo) (sms : List Char) :
    ((∀ p ∈ amountPatterns, reSearch p sms = none) → extractAmount sms = some 0) ∧
    (((¬ ∃ k ∈ inflowKeywords, k <:+: jsToLower sms) ∧
      (¬ ∃ k ∈ outflowKeywords, k <:+: jsToLower sms)) →
      extractDirection sms = Direction.Outflow) ∧
    ((¬ ∃ k ∈ [str "upi", str "@", str "card", str "atm", str "net banking",
        str "netbanking", str "wallet", str "cash"], k <:+: jsToLower sms) →
      extractPaymentMethod sms = str "UPI") ∧
    (reSearch bankPattern sms = none → extractAccount sms = unknownStr) ∧
    ((∀ p ∈ merchantPatterns, reSearch p sms = none) →
      extractRawMerchant sms = unknownStr) ∧
    ((∀ p ∈ idPatterns, reSearch p sms = none) →
      extractTransactionId now sms =
        str "TXN" ++ (natToChars now.ms).drop ((natToChars now.ms).length - 8)) ∧
    ((∀ p ∈ datePatterns, reSearch p sms = none) →
      extractTransactionDate now sms = getReadableDate now) ∧
    (extractPaymentMethod sms ≠ [] ∧ extractAccount sms ≠ [] ∧
      extractTransactionId now sms ≠ [] ∧ extractTransactionDate now sms ≠ []) ∧
    (extractRawMerchant sms = unknownStr ∨
      ∃ v, firstGroup1 merchantPatterns sms = some v ∧
        extractRawMerchant sms = trimJS v) := by
  refine ⟨?_, ?_, ?_, ?_, ?_, ?_, ?_, ?_, ?_⟩
  · intro h
    rw [extractAmount, firstGroup1_eq_none h]
  · rintro ⟨hin, hout⟩
    rw [extractDirection]
    simp only [keyword_any_eq_false hin, keyword_any_eq_false hout,
      Bool.false_eq_true, if_false]
  · intro h
    have h1 : jsIncludes (jsToLower sms) (str "upi") = false :=
      jsIncludes_eq_false (fun hc => h ⟨str "upi", by decide, hc⟩)
    have h2 : jsIncludes (jsToLower sms) (str "@") = false :=
      jsIncludes_eq_false (fun hc => h ⟨str "@", by decide, hc⟩)
    have h3 : jsIncludes (jsToLower sms) (str "card") = false :=
      jsIncludes_eq_false (fun hc => h ⟨str "card", by decide, hc⟩)
    have h4 : jsIncludes (jsToLower sms) (str "atm") = false :=
      jsIncludes_eq_false (fun hc => h ⟨str "atm", by decide, hc⟩)
    have h5 : jsIncludes (jsToLower sms) (str "net banking") = false :=
      jsIncludes_eq_false (fun hc => h ⟨str "net banking", by decide, hc⟩)
    have h6 : jsIncludes (jsToLower sms) (str "netbanking") = false :=
      jsIncludes_eq_false (fun hc => h ⟨str "netbanking", by decide, hc⟩)
    have h7 : jsIncludes (jsToLower sms) (str "wallet") = false :=
      jsIncludes_eq_false (fun hc => h ⟨str "wallet", by decide, hc⟩)
    have h8 : jsIncludes (jsToLower sms) (str "cash") = false :=
      jsIncludes_eq_false (fun hc => h ⟨str "cash", by decide, hc⟩)
    rw [extractPaymentMethod]
    simp only [h1, h2, h3, h4, h5, h6, h7, h8, Bool.or_self, Bool.false_eq_true,
      if_false]
  · intro h
    rw [extractAccount, h]
  · intro h
    rw [extractRawMerchant, firstGroup1_eq_none h]
  · intro h
    rw [extractTransactionId, firstGroup1_eq_none h]
  · intro h
    rw [extractTransactionDate, firstSearch_eq_none h]
  · exact ⟨extractPaymentMethod_ne_nil sms, extractAccount_ne_nil sms,
      extractTransactionId_ne_nil now sms, extractTransactionDate_ne_nil now sms⟩
  · rcases h : firstGroup1 merchantPatterns sms with _ | v
    · left; rw [extractRawMerchant, h]
    · right; exact ⟨v, rfl, by rw [extractRawMerchant, h]⟩

theorem extraction_total_with_defaults_witness :
    extractAmount (str "") = some 0 ∧
    extractDirection (str "") = Direction.Outflow ∧
    extractPaymentMethod (str "") = str "UPI" ∧
    extractAccount (str "") = unknownStr ∧
    extractRawMerchant (str "") = unknownStr ∧
    extractTransactionId ⟨21, 0, 2026, 13, 5, 1737459310123⟩ (str "") =
      str "TXN59310123" ∧
    extractTransactionDate ⟨21, 0, 2026, 13, 5, 1737459310123⟩ (str "") =
      str "21 Jan 2026" := by
  have T := extraction_total_with_defaults ⟨21, 0, 2026, 13, 5, 1737459310123⟩ (str "")
  exact ⟨T.1 (by decide), T.2.1 (by decide), T.2.2.1 (by decide), T.2.2.2.1 (by decide),
    T.2.2.2.2.1 (by decide), (T.2.2.2.2.2.1 (by decide)).trans (by decide),
    (T.2.2.2.2.2.2.1 (by decide)).trans (by decide)⟩

/-- Claim C10 counterexample: the row `["!!!", "Shop", "Misc"]` has a
non-empty raw pattern cell, so it passes the skip check, yet its
stored (normalized) match pattern is the empty string — against the
claim that every loaded rule has a non-empty match pattern. -/
theorem loadMerchantRules_empty_pattern_counterexample :
    (str "!!!" : List Char) ≠ [] ∧
    ((loadMerchantRules ⟨none, none⟩ 1000 true
        (LoadOutcome.success [[str "!!!", str "Shop", str "Misc"]])).1.map
      MerchantRule.match_pattern) = [[]] :=
  ⟨by decide, by decide⟩

/-- Claim C10 (amended): every rule list produced by a successful
cache load is `rulesFromRows` of the fetched rows, and every rule in
it has a non-empty canonical merchant, a non-empty category, and a
match pattern that is a fixed point of the shared normalization
function (it was normalized at load time); rows with an empty trimmed
pattern, merchant, or category cell are skipped. The stored match
pattern itself, however, may be empty when normalization strips every
character of a non-empty raw pattern. -/
theorem loadMerchantRules_success_invariant (st : CacheState) (now : Int)
    (rows : List (List (List Char))) (h : cacheFresh st now = false) :
    (loadMerchantRules st now true (LoadOutcome.success rows)).1 = rulesFromRows rows ∧
    ∀ r ∈ rulesFromRows rows,
      r.canonical_merchant ≠ [] ∧ r.category ≠ [] ∧
      normalizeForMatch r.match_pattern = r.match_pattern := by
  constructor
  · unfold loadMerchantRules
    rw [if_neg (by rw [h]; exact Bool.false_ne_true)]
    rfl
  · intro r hr
    rw [rulesFromRows, List.mem_filterMap] at hr
    obtain ⟨row, hrow, hf⟩ := hr
    rw [parseRow] at hf
    by_cases hc : trimJS (row.getD 0 []) = [] ∨ trimJS (row.getD 1 []) = [] ∨
        trimJS (row.getD 2 []) = []
    · rw [if_pos hc] at hf; cases hf
    · rw [if_neg hc] at hf
      rw [Option.some.injEq] at hf
      subst hf
      push_neg at hc
      exact ⟨hc.2.1, hc.2.2, normalizeForMatch_idem _⟩

theorem loadMerchantRules_success_invariant_witness :
    (loadMerchantRules ⟨none, none⟩ 1000 true
        (LoadOutcome.success [[str "Zomato ", str "Zomato", str "Food & Dining"]])).1 =
      rulesFromRows [[str "Zomato ", str "Zomato", str "Food & Dining"]] ∧
    ∀ r ∈ rulesFromRows [[str "Zomato ", str "Zomato", str "Food & Dining"]],
      r.canonical_merchant ≠ [] ∧ r.category ≠ [] ∧
      normalizeForMatch r.match_pattern = r.match_pattern :=
  loadMerchantRules_success_invariant ⟨none, none⟩ 1000
    [[str "Zomato ", str "Zomato", str "Food & Dining"]] (by decide)

/-! ### Fidelity pins for subtle pattern behaviours

These record, as computations of the embedded engine, the exact JS
backtracking outcomes of the source patterns on tricky inputs: the
whitespace-only capture of pattern 1 (the raw merchant trims to the
empty string), and the ordered alternation `Ref\.?|Reference` matching
inside the word `Reference`. -/

example : extractRawMerchant (str "to   at x") = [] := by decide
example : extractTransactionId ⟨1, 0, 2026, 0, 0, 0⟩ (str "Reference: 123") =
    str "erence" := by decide
example : extractAmount (str "Rs.3") = parseFloatQ (str "3") := rfl
